import Mathlib

/-!
Verification development for the Alge-Bro assessment scorer and progress
statistics engine.

The definitions below are shallow embeddings of the TypeScript source:

* `src/components/Quiz.tsx` — the `Quiz` component (index-mode scoring,
  300-second countdown) and the `PracticeProblems` component (text-mode
  scoring, 600-second countdown).  The `handleSubmit` bodies become
  `quizGrade` / `problemsGrade`; the React state (`userAnswers`,
  `submitted`, `timeLeft`) becomes `AssessState`, and the event handlers
  (`handleSubmit`, the timer `useEffect`, `handleAnswerChange`) become the
  `step` function on events.
* `src/utils/progress.ts` — `calculateStats`, `areConsecutiveDays`,
  `isSameDay`, `loadProgress`, `saveProgress`.

Modelling conventions:

* Calendar days are integers (day numbers).  `isSameDay d1 d2` is `d1 = d2`
  and `areConsecutiveDays d1 d2` is `(d1 - d2).natAbs = 1`: at midnight
  granularity the JS `Math.round(Math.abs((d1-d2)/oneDay)) === 1` test is
  exactly "the two days differ by one".
* A JS array lookup that can be out of bounds (`question.options[answer]`)
  is `List.get?`, with `none` standing for `undefined`.
* A nullable quiz answer (`number | null`) is `Option Nat`; a practice
  answer is a `String` (the JS truthiness test `answer || "No answer"`
  is `if answer = "" then "No answer" else answer`, since the empty string
  is the only falsy string).
* `Math.round(x)` for the nonnegative rational `100*s/t` is the half-up
  integer round `(200*s + t) / (2*t)` in natural-number division; for the
  magnitudes a score sum can reach, the double-precision evaluation in JS
  agrees with this exact rational rounding, ties included (`Math.round`
  rounds half-way cases up).
* `localStorage` reads/writes and `JSON.parse` are modelled by explicit
  outcome data (`StoredData`, a `readThrows`/`writeThrows` flag and a
  `Json` value type); `try/catch` becomes a `match` on `Except`.
-/

namespace AlgeBro

/-- One quiz question, from `types.ts` (`QuizQuestion`): text, option
strings, 0-based index of the correct option. -/
structure QuizQuestion where
  questionText : String
  options : List String
  correctAnswerIndex : Nat
deriving Repr, DecidableEq

/-- One practice problem, from `types.ts` (`PracticeProblem`). -/
structure PracticeProblem where
  problemText : String
  answer : String
deriving Repr, DecidableEq

/-- A mistake entry, from `types.ts` (`Mistake`).  The `userAnswer` and
`correctAnswer` fields are built from JS array indexing that can yield
`undefined`, so they are `Option String` here (`none` = `undefined`). -/
structure Mistake where
  questionText : String
  userAnswer : Option String
  correctAnswer : Option String
deriving Repr, DecidableEq

/-- Quiz.tsx line 31: `answer === question.correctAnswerIndex`; `null`
(`none`) never equals an index. -/
def quizIsCorrect (q : QuizQuestion) (a : Option Nat) : Bool :=
  a == some q.correctAnswerIndex

/-- Quiz.tsx lines 35–39: the object pushed onto `mistakes` for an
incorrect or unanswered question. -/
def quizMistakeEntry (q : QuizQuestion) (a : Option Nat) : Mistake :=
  { questionText := q.questionText
    userAnswer := match a with
      | some i => q.options.get? i
      | none => some "No answer"
    correctAnswer := q.options.get? q.correctAnswerIndex }

/-- Quiz.tsx lines 27–41: the `userAnswers.forEach` loop of `handleSubmit`,
accumulating `finalScore` and `mistakes` in item order. -/
def quizGrade : List QuizQuestion → List (Option Nat) → Nat × List Mistake
  | [], _ => (0, [])
  | _, [] => (0, [])
  | q :: qs, a :: as =>
    let rest := quizGrade qs as
    if quizIsCorrect q a then (rest.1 + 1, rest.2)
    else (rest.1, quizMistakeEntry q a :: rest.2)

/-- A whitespace character as JS `trim()` treats the ones that can occur
here: space, tab, newline, carriage return. -/
def isWhitespaceChar (c : Char) : Bool :=
  c = ' ' || c = '\t' || c = '\n' || c = '\r'

/-- Drop leading whitespace characters. -/
def dropLeadingWs : List Char → List Char
  | [] => []
  | c :: rest => if isWhitespaceChar c then dropLeadingWs rest else c :: rest

/-- JS `String.prototype.trim`: strip leading and trailing whitespace. -/
def jsTrim (s : String) : String :=
  String.mk ((dropLeadingWs (dropLeadingWs s.data).reverse).reverse)

/-- JS `String.prototype.toLowerCase` on the ASCII letters that occur in
answers: map each uppercase letter to its lowercase form. -/
def toLowerChar (c : Char) : Char :=
  if 'A' ≤ c && c ≤ 'Z' then Char.ofNat (c.toNat + 32) else c

/-- Lowercasing of a whole string. -/
def jsToLower (s : String) : String := String.mk (s.data.map toLowerChar)

/-- The normalisation `s.trim().toLowerCase()` applied to both sides of the
text-mode comparison (Quiz.tsx line 179). -/
def textNormalize (s : String) : String := jsToLower (jsTrim s)

/-- Quiz.tsx line 179: case- and outer-whitespace-insensitive equality. -/
def problemIsCorrect (p : PracticeProblem) (a : String) : Bool :=
  textNormalize a == textNormalize p.answer

/-- Quiz.tsx lines 183–187: the mistake entry for an incorrect practice
problem.  `answer || "No answer"` replaces exactly the empty string (the
only falsy string) with the sentinel. -/
def problemMistakeEntry (p : PracticeProblem) (a : String) : Mistake :=
  { questionText := p.problemText
    userAnswer := some (if a = "" then "No answer" else a)
    correctAnswer := some p.answer }

/-- Quiz.tsx lines 175–189: the `userAnswers.forEach` loop of the
practice-problems `handleSubmit`. -/
def problemsGrade : List PracticeProblem → List String → Nat × List Mistake
  | [], _ => (0, [])
  | _, [] => (0, [])
  | p :: ps, a :: as =>
    let rest := problemsGrade ps as
    if problemIsCorrect p a then (rest.1 + 1, rest.2)
    else (rest.1, problemMistakeEntry p a :: rest.2)

/-- Quiz.tsx line 4: `QUIZ_TIME_SECONDS = 300`. -/
def QUIZ_TIME_SECONDS : Int := 300

/-- Quiz.tsx line 151: `PROBLEMS_TIME_SECONDS = 600`. -/
def PROBLEMS_TIME_SECONDS : Int := 600

/-- The payload handed to `onComplete`: score, total, timeTaken, mistakes. -/
structure AssessResult where
  score : Nat
  total : Nat
  timeTaken : Int
  mistakes : List Mistake
deriving Repr, DecidableEq

/-- The component state: `userAnswers`, `submitted`, `timeLeft`, plus the
result produced at first submission (the `onComplete` payload; `none`
while not yet submitted). -/
structure AssessState (α : Type) where
  answers : List α
  submitted : Bool
  timeLeft : Int
  result : Option AssessResult
deriving Repr, DecidableEq

/-- Events that can reach the component: a submit click, a timer tick
(one run of the countdown `useEffect`), or an answer edit. -/
inductive AssessEvent (α : Type) where
  | submitClick : AssessEvent α
  | tick : AssessEvent α
  | answerChange (index : Nat) (value : α) : AssessEvent α
deriving Repr

/-- Quiz.tsx lines 22–45 / 170–193: `handleSubmit`.  If already submitted
it returns unchanged; otherwise it marks the state submitted and produces
the result from the current answers, with
`timeTaken = budgetSeconds - timeLeft`. -/
def handleSubmit {α : Type} (grade : List α → Nat × List Mistake)
    (total : Nat) (budget : Int) (s : AssessState α) : AssessState α :=
  if s.submitted then s
  else
    let g := grade s.answers
    { s with submitted := true
             result := some ⟨g.1, total, budget - s.timeLeft, g.2⟩ }

/-- The event step function.  `tick` models one run of the countdown
`useEffect` (Quiz.tsx lines 47–60): a no-op once submitted, an automatic
`handleSubmit` when `timeLeft <= 0`, otherwise a one-second decrement.
`answerChange` models `handleAnswerChange` (lines 62–67 / 210–215). -/
def step {α : Type} (grade : List α → Nat × List Mistake)
    (total : Nat) (budget : Int)
    (e : AssessEvent α) (s : AssessState α) : AssessState α :=
  match e with
  | .submitClick => handleSubmit grade total budget s
  | .tick =>
    if s.submitted then s
    else if s.timeLeft ≤ 0 then handleSubmit grade total budget s
    else { s with timeLeft := s.timeLeft - 1 }
  | .answerChange i v =>
    if s.submitted then s
    else { s with answers := s.answers.set i v }

/-- The `Quiz` component's step function, instantiated with its question
list, total and 300-second budget. -/
def quizStep (qs : List QuizQuestion) :
    AssessEvent (Option Nat) → AssessState (Option Nat) → AssessState (Option Nat) :=
  step (quizGrade qs) qs.length QUIZ_TIME_SECONDS

/-- The `PracticeProblems` component's step function, with its problem
list, total and 600-second budget. -/
def problemsStep (ps : List PracticeProblem) :
    AssessEvent String → AssessState String → AssessState String :=
  step (problemsGrade ps) ps.length PROBLEMS_TIME_SECONDS

/-- One completed lesson's record, from `types.ts` (`LessonRecord`),
with the calendar day as an integer day number (the stored string is a
`YYYY-MM-DD` day, App.tsx line 97).  The `mistakes` payload plays no role
in `calculateStats` and is omitted. -/
structure LessonRecord where
  date : Int
  topic : String
  quizScore : Nat
  quizTotal : Nat
  quizTimeTaken : Int
  problemsScore : Nat
  problemsTotal : Nat
  problemsTimeTaken : Int
deriving Repr, DecidableEq

/-- The derived statistics, from `types.ts` (`ProgressStats`). -/
structure ProgressStats where
  currentStreak : Nat
  longestStreak : Nat
  lessonsCompleted : Nat
  averageScore : Nat
deriving Repr, DecidableEq

/-- progress.ts lines 6–14, `areConsecutiveDays`: with dates at day
granularity, `Math.round(Math.abs((d1-d2)/oneDay)) === 1` is exactly
"the day numbers differ by one (in either direction)". -/
def areConsecutiveDays (d1 d2 : Int) : Bool := (d1 - d2).natAbs = 1

/-- progress.ts lines 17–21, `isSameDay`: equality of calendar days. -/
def isSameDay (d1 d2 : Int) : Bool := d1 = d2

/-- progress.ts lines 61–68: the current-streak walk.  Starting at 1 for
the head, it adds 1 for every adjacent pair of consecutive days and stops
at the first gap — the length of the initial consecutive run. -/
def runLen : List Int → Nat
  | [] => 0
  | [_] => 1
  | d :: e :: rest =>
    if areConsecutiveDays d e then runLen (e :: rest) + 1 else 1

/-- progress.ts lines 76–85: the longest-streak loop body, carried over the
remaining adjacent pairs.  `prev` is `uniqueDates[i]`, `temp` is
`tempStreak`, `longest` is `longestStreak`; `if (tempStreak > longestStreak)`
is the `max`. -/
def longestLoop : Int → Nat → Nat → List Int → Nat
  | _, _, longest, [] => longest
  | prev, temp, longest, d :: rest =>
    let t := if areConsecutiveDays prev d then temp + 1 else 1
    longestLoop d t (max longest t) rest

/-- progress.ts lines 73–88: the longest-streak computation over the
sorted distinct-day list (1 for a nonempty list before the loop, 0 for an
empty one). -/
def longestStreakOf : List Int → Nat
  | [] => 0
  | d :: rest => longestLoop d 1 1 rest

/-- progress.ts line 48: distinct dates (`[...new Set(...)]`, first
occurrences kept) sorted in descending order. -/
def uniqueDaysDesc (records : List LessonRecord) : List Int :=
  ((records.map (fun r => r.date)).dedup).insertionSort (fun a b => b ≤ a)

/-- progress.ts lines 43–98, `calculateStats`.  `today` is the `new Date()`
of line 57, as a day number. -/
def calculateStats (today : Int) (records : List LessonRecord) : ProgressStats :=
  if records = [] then
    { currentStreak := 0, longestStreak := 0, lessonsCompleted := 0, averageScore := 0 }
  else
    let uniqueDates := uniqueDaysDesc records
    let currentStreak :=
      match uniqueDates with
      | [] => 0
      | latest :: _ =>
        if isSameDay today latest || areConsecutiveDays today latest then
          runLen uniqueDates
        else 0
    let longestStreak := longestStreakOf uniqueDates
    let totalScore := records.foldl (fun (acc : Nat) r => acc + r.quizScore + r.problemsScore) 0
    let totalPossible := records.foldl (fun (acc : Nat) r => acc + r.quizTotal + r.problemsTotal) 0
    let averageScore :=
      if totalPossible > 0 then (200 * totalScore + totalPossible) / (2 * totalPossible)
      else 0
    { currentStreak := currentStreak
      longestStreak := longestStreak
      lessonsCompleted := records.length
      averageScore := averageScore }

/-- A JSON value, the possible result of `JSON.parse`. -/
inductive Json where
  | null : Json
  | bool (b : Bool) : Json
  | num (n : Int) : Json
  | str (s : String) : Json
  | arr (elems : List Json) : Json
  | obj (fields : List (String × Json)) : Json

/-- The serialisation of `{ records: [] }`, the default `UserProgress`. -/
def emptyProgressJson : Json := .obj [("records", .arr [])]

/-- What `localStorage.getItem(PROGRESS_KEY)` followed by `JSON.parse`
can yield: the key absent (or holding the falsy empty string, which the
`if (data)` guard also skips), a string `JSON.parse` throws on, or a
successfully parsed JSON value of arbitrary shape. -/
inductive StoredData where
  | absent : StoredData
  | unparseable : StoredData
  | parsed (j : Json) : StoredData

/-- The `try` block of progress.ts lines 24–28: `getItem` may itself throw
(`readThrows`), `JSON.parse` throws on unparseable data; a parsed value is
returned as-is by the unchecked cast `as UserProgress`.  `.ok none` is the
fall-through when the key is absent. -/
def loadProgressAttempt (readThrows : Bool) (stored : StoredData) :
    Except String (Option Json) :=
  if readThrows then .error "Failed to load progress"
  else
    match stored with
    | .absent => .ok none
    | .unparseable => .error "Failed to load progress"
    | .parsed j => .ok (some j)

/-- progress.ts lines 23–33, `loadProgress`: the `catch` logs and falls
through, and `{ records: [] }` is returned whenever the `try` block did
not return a parsed value. -/
def loadProgress (readThrows : Bool) (stored : StoredData) : Json :=
  match loadProgressAttempt readThrows stored with
  | .ok (some j) => j
  | .ok none => emptyProgressJson
  | .error _ => emptyProgressJson

/-- progress.ts lines 35–41, `saveProgress`: `setItem` may throw
(`writeThrows`), in which case the error is caught and logged and the
store is left unchanged; otherwise the serialised progress replaces the
stored value.  The returned store state models the function's only
effect; it never rethrows. -/
def saveProgress (writeThrows : Bool) (store : Option Json) (progress : Json) :
    Option Json :=
  if writeThrows then store else some progress

/-! Spec-side definitions, written from the specification's words, to be
compared with the embeddings above. -/

/-- Day adjacency as a proposition: the two day numbers differ by exactly
one (in either direction). -/
def AdjDay (a b : Int) : Prop := (a - b).natAbs = 1

/-- The distinct calendar days of the history, sorted ascending, as §4.2
of the spec describes them ("Sort distinct days ascending"). -/
def distinctDaysAsc (records : List LessonRecord) : List Int :=
  ((records.map (fun r => r.date)).dedup).insertionSort (fun a b => a ≤ b)

/-- The maximum length of any run of adjacent consecutive entries found
anywhere in the list: the largest initial-run length over all suffixes. -/
def maxRun : List Int → Nat
  | [] => 0
  | d :: rest => max (runLen (d :: rest)) (maxRun rest)

/-- Spec §4.1: the mistakes list is one entry per incorrect item, in
original item order — the incorrect pairs of the item/answer zip, each
rendered as a mistake entry. -/
def specQuizMistakes (qs : List QuizQuestion) (as : List (Option Nat)) : List Mistake :=
  ((qs.zip as).filter fun x => !(quizIsCorrect x.1 x.2)).map fun x => quizMistakeEntry x.1 x.2

/-- Text-mode counterpart of `specQuizMistakes`. -/
def specProblemsMistakes (ps : List PracticeProblem) (as : List String) : List Mistake :=
  ((ps.zip as).filter fun x => !(problemIsCorrect x.1 x.2)).map fun x => problemMistakeEntry x.1 x.2

/-- Spec §4.2: the round-to-nearest-integer percentage of total points over
total possible, 0 when the denominator is 0.  `(200*s + t) / (2*t)` is the
half-up round of `100*s/t` in natural division. -/
def specAverageScore (records : List LessonRecord) : Nat :=
  let s := (records.map fun r => r.quizScore + r.problemsScore).sum
  let t := (records.map fun r => r.quizTotal + r.problemsTotal).sum
  if t = 0 then 0 else (200 * s + t) / (2 * t)

/-- Claim C2 as stated: walking backward from the most recent distinct day
(the last entry of the ascending distinct-day list), counting consecutive
days, but only when that day is today or yesterday; otherwise 0. -/
def specCurrentStreakClaimed (today : Int) (records : List LessonRecord) : Nat :=
  match (distinctDaysAsc records).getLast? with
  | none => 0
  | some latest =>
    if latest = today ∨ latest = today - 1 then
      runLen (distinctDaysAsc records).reverse
    else 0

/-- Claim C2 amended: the walk also runs when the most recent distinct day
is one day in the future (tomorrow), i.e. whenever it is within one
calendar day of today. -/
def specCurrentStreakAmended (today : Int) (records : List LessonRecord) : Nat :=
  match (distinctDaysAsc records).getLast? with
  | none => 0
  | some latest =>
    if (today - latest).natAbs ≤ 1 then
      runLen (distinctDaysAsc records).reverse
    else 0

/-- A JSON value of the shape `{ records: [...] }` that serialised
`UserProgress` data has. -/
def isProgressShape (j : Json) : Prop :=
  ∃ rs, j = Json.obj [("records", Json.arr rs)]

/-! Helper lemmas about runs of consecutive days. -/

theorem areConsecutiveDays_iff {a b : Int} :
    areConsecutiveDays a b = true ↔ AdjDay a b := by
  simp [areConsecutiveDays, AdjDay]

theorem runLen_le_length (l : List Int) : runLen l ≤ l.length := by
  induction l with
  | nil => simp [runLen]
  | cons a t ih =>
    cases t with
    | nil => simp [runLen]
    | cons b u =>
      by_cases h : areConsecutiveDays a b
      · simp only [runLen, h, if_true, List.length_cons]
        simp only [List.length_cons] at ih
        omega
      · simp [runLen, h]

theorem runLen_pos {l : List Int} (h : l ≠ []) : 1 ≤ runLen l := by
  cases l with
  | nil => exact absurd rfl h
  | cons a t =>
    cases t with
    | nil => simp [runLen]
    | cons b u =>
      by_cases hab : areConsecutiveDays a b <;> simp [runLen, hab]

theorem runLen_of_chain {l : List Int} (h : List.Chain' AdjDay l) :
    runLen l = l.length := by
  induction l with
  | nil => simp [runLen]
  | cons a t ih =>
    cases t with
    | nil => simp [runLen]
    | cons b u =>
      rw [List.chain'_cons] at h
      have hab : areConsecutiveDays a b = true := areConsecutiveDays_iff.mpr h.1
      simp [runLen, hab, ih h.2]

theorem chain_of_runLen {l : List Int} (h : runLen l = l.length) :
    List.Chain' AdjDay l := by
  induction l with
  | nil => simp
  | cons a t ih =>
    cases t with
    | nil => simp
    | cons b u =>
      by_cases hab : areConsecutiveDays a b
      · rw [List.chain'_cons]
        refine ⟨areConsecutiveDays_iff.mp hab, ih ?_⟩
        simp [runLen, hab] at h
        simpa [runLen] using h
      · simp [runLen, hab] at h

theorem adjday_chain_reverse {l : List Int} :
    List.Chain' AdjDay l.reverse ↔ List.Chain' AdjDay l := by
  rw [List.chain'_reverse]
  constructor <;>
    · intro h
      refine h.imp ?_
      intro a b hab
      simp only [flip, AdjDay] at hab ⊢
      omega

theorem runLen_append_of_not_chain {l : List Int} {x : Int} (hne : l ≠ [])
    (h : ¬ List.Chain' AdjDay (l ++ [x])) :
    runLen (l ++ [x]) = runLen l := by
  induction l with
  | nil => exact absurd rfl hne
  | cons a t ih =>
    cases t with
    | nil =>
      have hax : ¬ areConsecutiveDays a x := by
        intro hc
        exact h (by simp [List.chain'_cons, areConsecutiveDays_iff.mp hc])
      simp [runLen, hax]
    | cons b u =>
      by_cases hab : areConsecutiveDays a b
      · have hnotch : ¬ List.Chain' AdjDay ((b :: u) ++ [x]) := by
          intro hc
          exact h (List.chain'_cons.mpr ⟨areConsecutiveDays_iff.mp hab, hc⟩)
        have := ih (by simp) hnotch
        simp only [List.cons_append, runLen, hab, if_true] at this ⊢
        simp [runLen, hab] at this ⊢
        omega
      · simp [runLen, hab]

theorem maxRun_le_length (l : List Int) : maxRun l ≤ l.length := by
  induction l with
  | nil => simp [maxRun]
  | cons a t ih =>
    have h1 := runLen_le_length (a :: t)
    simp only [maxRun, List.length_cons] at h1 ⊢
    omega

theorem maxRun_append_singleton (l : List Int) (x : Int) :
    maxRun (l ++ [x]) = max (maxRun l) (runLen (x :: l.reverse)) := by
  induction l with
  | nil => simp [maxRun, runLen]
  | cons b m ih =>
    have hrev : (b :: m) ++ [x] = ((x :: m.reverse) ++ [b]).reverse := by
      simp
    by_cases hch : List.Chain' AdjDay ((b :: m) ++ [x])
    · have hch2 : List.Chain' AdjDay ((x :: m.reverse) ++ [b]) := by
        rw [← adjday_chain_reverse, ← hrev]
        exact hch
      have e1 : runLen ((b :: m) ++ [x]) = m.length + 2 := by
        rw [runLen_of_chain hch]
        simp
      have e2 : runLen ((x :: m.reverse) ++ [b]) = m.length + 2 := by
        rw [runLen_of_chain hch2]
        simp
      have b1 : runLen (b :: m) ≤ m.length + 1 := by
        have := runLen_le_length (b :: m)
        simpa using this
      have b2 : runLen (x :: m.reverse) ≤ m.length + 1 := by
        have := runLen_le_length (x :: m.reverse)
        simpa using this
      have b3 : maxRun (m ++ [x]) ≤ m.length + 1 := by
        have := maxRun_le_length (m ++ [x])
        simpa using this
      have b4 : maxRun m ≤ m.length := maxRun_le_length m
      simp only [List.cons_append, List.append_eq, maxRun] at *
      rw [List.reverse_cons]
      rw [e1, e2, ih]
      omega
    · have hch2 : ¬ List.Chain' AdjDay ((x :: m.reverse) ++ [b]) := by
        rw [← adjday_chain_reverse, ← hrev]
        exact hch
      have e1 : runLen ((b :: m) ++ [x]) = runLen (b :: m) :=
        runLen_append_of_not_chain (by simp) hch
      have e2 : runLen ((x :: m.reverse) ++ [b]) = runLen (x :: m.reverse) :=
        runLen_append_of_not_chain (by simp) hch2
      simp only [List.cons_append, List.append_eq, maxRun] at *
      rw [List.reverse_cons]
      rw [e1, e2, ih]
      omega

theorem maxRun_reverse (l : List Int) : maxRun l.reverse = maxRun l := by
  induction l with
  | nil => simp
  | cons a t ih =>
    rw [List.reverse_cons, maxRun_append_singleton, ih, List.reverse_reverse]
    simp only [maxRun]
    omega

theorem longestLoop_eq (rest : List Int) :
    ∀ (prev : Int) (temp longest : Nat), 1 ≤ temp → temp ≤ longest →
      longestLoop prev temp longest rest =
        max longest (max (temp - 1 + runLen (prev :: rest)) (maxRun rest)) := by
  induction rest with
  | nil =>
    intro prev temp longest h1 h2
    simp only [longestLoop, runLen, maxRun]
    omega
  | cons d r ih =>
    intro prev temp longest h1 h2
    by_cases hadj : areConsecutiveDays prev d
    · have step1 : longestLoop prev temp longest (d :: r) =
          longestLoop d (temp + 1) (max longest (temp + 1)) r := by
        simp [longestLoop, hadj]
      rw [step1, ih d (temp + 1) (max longest (temp + 1)) (by omega) (by omega)]
      have hr1 : runLen (prev :: d :: r) = runLen (d :: r) + 1 := by
        simp [runLen, hadj]
      have hr2 : 1 ≤ runLen (d :: r) := runLen_pos (by simp)
      simp only [maxRun]
      rw [hr1]
      omega
    · have step1 : longestLoop prev temp longest (d :: r) =
          longestLoop d 1 (max longest 1) r := by
        simp [longestLoop, hadj]
      rw [step1, ih d 1 (max longest 1) (by omega) (by omega)]
      have hr1 : runLen (prev :: d :: r) = 1 := by
        simp [runLen, hadj]
      have hr2 : 1 ≤ runLen (d :: r) := runLen_pos (by simp)
      simp only [maxRun]
      rw [hr1]
      omega

theorem longestStreakOf_eq_maxRun (l : List Int) : longestStreakOf l = maxRun l := by
  cases l with
  | nil => simp [longestStreakOf, maxRun]
  | cons d rest =>
    rw [longestStreakOf, longestLoop_eq rest d 1 1 (by omega) (by omega)]
    have h1 : 1 ≤ runLen (d :: rest) := runLen_pos (by simp)
    simp only [maxRun]
    omega

theorem insertionSort_asc_eq_reverse_desc (l : List Int) :
    l.insertionSort (fun a b => a ≤ b) = (l.insertionSort (fun a b => b ≤ a)).reverse := by
  haveI h1 : IsTotal Int (fun a b : Int => a ≤ b) := ⟨fun a b => le_total a b⟩
  haveI h2 : IsTrans Int (fun a b : Int => a ≤ b) := ⟨fun a b c hab hbc => le_trans hab hbc⟩
  haveI h3 : IsAntisymm Int (fun a b : Int => a ≤ b) := ⟨fun a b hab hba => le_antisymm hab hba⟩
  haveI h4 : IsTotal Int (fun a b : Int => b ≤ a) := ⟨fun a b => le_total b a⟩
  haveI h5 : IsTrans Int (fun a b : Int => b ≤ a) := ⟨fun a b c hab hbc => le_trans hbc hab⟩
  apply List.eq_of_perm_of_sorted (r := fun a b : Int => a ≤ b)
  · exact (List.perm_insertionSort _ l).trans
      ((List.reverse_perm _).trans (List.perm_insertionSort _ l)).symm
  · exact List.sorted_insertionSort _ l
  · exact List.pairwise_reverse.mpr (List.sorted_insertionSort _ l)

theorem distinctDaysAsc_eq_reverse (records : List LessonRecord) :
    distinctDaysAsc records = (uniqueDaysDesc records).reverse := by
  rw [distinctDaysAsc, uniqueDaysDesc]
  exact insertionSort_asc_eq_reverse_desc _

theorem uniqueDaysDesc_ne_nil {records : List LessonRecord} (h : records ≠ []) :
    uniqueDaysDesc records ≠ [] := by
  intro hnil
  have hlen := (List.perm_insertionSort (fun a b : Int => b ≤ a)
    ((records.map (fun r => r.date)).dedup)).length_eq
  rw [uniqueDaysDesc] at hnil
  rw [hnil] at hlen
  simp at hlen
  have hd : (List.map (fun r => r.date) records).dedup = [] :=
    List.length_eq_zero.mp hlen.symm
  rw [List.dedup_eq_nil, List.map_eq_nil_iff] at hd
  exact h hd

theorem foldl_add_pair_eq_sum (f g : LessonRecord → Nat) (l : List LessonRecord) (n : Nat) :
    l.foldl (fun acc r => acc + f r + g r) n = n + (l.map fun r => f r + g r).sum := by
  induction l generalizing n with
  | nil => simp
  | cons r t ih =>
    simp only [List.foldl_cons, List.map_cons, List.sum_cons, ih]
    omega

theorem quizGrade_snd (qs : List QuizQuestion) (as : List (Option Nat)) :
    (quizGrade qs as).2 = specQuizMistakes qs as := by
  induction qs generalizing as with
  | nil => simp [quizGrade, specQuizMistakes]
  | cons q qt ih =>
    cases as with
    | nil => simp [quizGrade, specQuizMistakes]
    | cons a rest =>
      by_cases h : quizIsCorrect q a <;>
        simp [quizGrade, specQuizMistakes, h, ih rest]

theorem problemsGrade_snd (ps : List PracticeProblem) (as : List String) :
    (problemsGrade ps as).2 = specProblemsMistakes ps as := by
  induction ps generalizing as with
  | nil => simp [problemsGrade, specProblemsMistakes]
  | cons p pt ih =>
    cases as with
    | nil => simp [problemsGrade, specProblemsMistakes]
    | cons a rest =>
      by_cases h : problemIsCorrect p a <;>
        simp [problemsGrade, specProblemsMistakes, h, ih rest]

theorem quizGrade_split (qs : List QuizQuestion) (as : List (Option Nat))
    (h : qs.length = as.length) :
    (quizGrade qs as).1 + (quizGrade qs as).2.length = qs.length := by
  induction qs generalizing as with
  | nil => simp [quizGrade]
  | cons q qt ih =>
    cases as with
    | nil => simp at h
    | cons a rest =>
      simp only [List.length_cons] at h
      have ih2 := ih rest (by omega)
      by_cases hc : quizIsCorrect q a <;> simp [quizGrade, hc] <;> omega

theorem problemsGrade_split (ps : List PracticeProblem) (as : List String)
    (h : ps.length = as.length) :
    (problemsGrade ps as).1 + (problemsGrade ps as).2.length = ps.length := by
  induction ps generalizing as with
  | nil => simp [problemsGrade]
  | cons p pt ih =>
    cases as with
    | nil => simp at h
    | cons a rest =>
      simp only [List.length_cons] at h
      have ih2 := ih rest (by omega)
      by_cases hc : problemIsCorrect p a <;> simp [problemsGrade, hc] <;> omega

theorem get?_isSome_of_lt {l : List String} {i : Nat} (h : i < l.length) :
    (l.get? i).isSome := by
  rw [List.get?_eq_get h]
  rfl

/-! Claim theorems. -/

/-- Claim C1, counterexample: in text mode an empty-string answer is not
passed through as the literal empty string — the mistake entry for problem
"2+2" answered with `""` carries the sentinel "No answer", not `""`. -/
theorem claim1_cex :
    ((problemsGrade [⟨"2+2", "4"⟩] [""]).2.map (fun m => m.userAnswer))
      = [some "No answer"] ∧
    ((problemsGrade [⟨"2+2", "4"⟩] [""]).2.map (fun m => m.userAnswer))
      ≠ [some ""] := by
  refine ⟨rfl, ?_⟩
  decide

/-- Claim C1 (amended): the mistakes list has one entry per
incorrect-or-unanswered item, in original item order, in both modes; an
unanswered index-mode item renders as the sentinel "No answer"; in text
mode an empty-string answer is likewise replaced by the sentinel
"No answer" (the JS truthiness of `answer || "No answer"`), while any
non-empty incorrect answer is passed through unchanged. -/
theorem claim1_mistakes_order_and_rendering
    (qs : List QuizQuestion) (as : List (Option Nat))
    (ps : List PracticeProblem) (bs : List String)
    (q : QuizQuestion) (p p2 : PracticeProblem) (a : String) (ha : a ≠ "") :
    (quizGrade qs as).2 = specQuizMistakes qs as ∧
    (problemsGrade ps bs).2 = specProblemsMistakes ps bs ∧
    (quizMistakeEntry q none).userAnswer = some "No answer" ∧
    (problemMistakeEntry p "").userAnswer = some "No answer" ∧
    (problemMistakeEntry p2 a).userAnswer = some a := by
  refine ⟨quizGrade_snd qs as, problemsGrade_snd ps bs, rfl, rfl, ?_⟩
  simp [problemMistakeEntry, ha]

/-- Claim C1 witness: the amended claim applied to concrete inputs. -/
theorem claim1_witness :
    (quizGrade [⟨"q", ["x", "y"], 0⟩] [none]).2
      = specQuizMistakes [⟨"q", ["x", "y"], 0⟩] [none] ∧
    (problemsGrade [⟨"p", "4"⟩] [""]).2
      = specProblemsMistakes [⟨"p", "4"⟩] [""] ∧
    (quizMistakeEntry ⟨"q", ["x", "y"], 0⟩ none).userAnswer = some "No answer" ∧
    (problemMistakeEntry ⟨"p", "4"⟩ "").userAnswer = some "No answer" ∧
    (problemMistakeEntry ⟨"p", "4"⟩ "7").userAnswer = some "7" :=
  claim1_mistakes_order_and_rendering [⟨"q", ["x", "y"], 0⟩] [none] [⟨"p", "4"⟩] [""]
    ⟨"q", ["x", "y"], 0⟩ ⟨"p", "4"⟩ ⟨"p", "4"⟩ "7" (by decide)

/-- Claim C4: for equal-length item and answer lists, in both index mode
and text mode, the score plus the number of mistakes equals the number of
items. -/
theorem claim4_score_plus_mistakes
    (qs : List QuizQuestion) (as : List (Option Nat))
    (ps : List PracticeProblem) (bs : List String)
    (hq : qs.length = as.length) (hp : ps.length = bs.length) :
    (quizGrade qs as).1 + (quizGrade qs as).2.length = qs.length ∧
    (problemsGrade ps bs).1 + (problemsGrade ps bs).2.length = ps.length :=
  ⟨quizGrade_split qs as hq, problemsGrade_split ps bs hp⟩

/-- Claim C4 witness: concrete two-item instances of both modes. -/
theorem claim4_witness :
    (quizGrade [⟨"q1", ["x", "y"], 0⟩, ⟨"q2", ["x", "y"], 1⟩] [some 0, none]).1 +
      (quizGrade [⟨"q1", ["x", "y"], 0⟩, ⟨"q2", ["x", "y"], 1⟩] [some 0, none]).2.length = 2 ∧
    (problemsGrade [⟨"p1", "4"⟩, ⟨"p2", "5"⟩] ["4", "6"]).1 +
      (problemsGrade [⟨"p1", "4"⟩, ⟨"p2", "5"⟩] ["4", "6"]).2.length = 2 :=
  claim4_score_plus_mistakes [⟨"q1", ["x", "y"], 0⟩, ⟨"q2", ["x", "y"], 1⟩]
    [some 0, none] [⟨"p1", "4"⟩, ⟨"p2", "5"⟩] ["4", "6"] rfl rfl

/-- Claim C7: when the countdown reaches 0 before submission, the tick
event produces exactly the state a manual submit would, the computed
result has `timeTaken` equal to the budget (300 for quiz, 600 for
practice), and unanswered items score as incorrect. -/
theorem claim7_timeout_equals_manual
    (qs : List QuizQuestion) (sq : AssessState (Option Nat))
    (ps : List PracticeProblem) (sp : AssessState String) (q : QuizQuestion)
    (hq1 : sq.submitted = false) (hq2 : sq.timeLeft = 0)
    (hp1 : sp.submitted = false) (hp2 : sp.timeLeft = 0) :
    quizStep qs .tick sq = quizStep qs .submitClick sq ∧
    (quizStep qs .tick sq).result =
      some ⟨(quizGrade qs sq.answers).1, qs.length, QUIZ_TIME_SECONDS,
        (quizGrade qs sq.answers).2⟩ ∧
    problemsStep ps .tick sp = problemsStep ps .submitClick sp ∧
    (problemsStep ps .tick sp).result =
      some ⟨(problemsGrade ps sp.answers).1, ps.length, PROBLEMS_TIME_SECONDS,
        (problemsGrade ps sp.answers).2⟩ ∧
    quizIsCorrect q none = false := by
  refine ⟨?_, ?_, ?_, ?_, rfl⟩
  · simp [quizStep, step, hq1, hq2]
  · simp [quizStep, step, handleSubmit, hq1, hq2]
  · simp [problemsStep, step, hp1, hp2]
  · simp [problemsStep, step, handleSubmit, hp1, hp2]

/-- Claim C7 witness: a one-question quiz and a one-problem practice
session, both unanswered, at the moment the countdown reaches 0. -/
theorem claim7_witness :
    quizStep [⟨"q", ["x", "y"], 0⟩] .tick
        (⟨[none], false, 0, none⟩ : AssessState (Option Nat)) =
      quizStep [⟨"q", ["x", "y"], 0⟩] .submitClick
        (⟨[none], false, 0, none⟩ : AssessState (Option Nat)) ∧
    (quizStep [⟨"q", ["x", "y"], 0⟩] .tick
        (⟨[none], false, 0, none⟩ : AssessState (Option Nat))).result =
      some ⟨(quizGrade [⟨"q", ["x", "y"], 0⟩] [none]).1, 1, QUIZ_TIME_SECONDS,
        (quizGrade [⟨"q", ["x", "y"], 0⟩] [none]).2⟩ ∧
    problemsStep [⟨"p", "4"⟩] .tick (⟨[""], false, 0, none⟩ : AssessState String) =
      problemsStep [⟨"p", "4"⟩] .submitClick
        (⟨[""], false, 0, none⟩ : AssessState String) ∧
    (problemsStep [⟨"p", "4"⟩] .tick
        (⟨[""], false, 0, none⟩ : AssessState String)).result =
      some ⟨(problemsGrade [⟨"p", "4"⟩] [""]).1, 1, PROBLEMS_TIME_SECONDS,
        (problemsGrade [⟨"p", "4"⟩] [""]).2⟩ ∧
    quizIsCorrect ⟨"q", ["x", "y"], 0⟩ none = false :=
  claim7_timeout_equals_manual [⟨"q", ["x", "y"], 0⟩] ⟨[none], false, 0, none⟩
    [⟨"p", "4"⟩] ⟨[""], false, 0, none⟩ ⟨"q", ["x", "y"], 0⟩ rfl rfl rfl rfl

/-- Claim C8: once submitted, every further event (repeated submit, answer
change, timer tick) leaves the state — including the stored result —
unchanged; and the first submission computes the result exactly once from
the answers recorded at that moment. -/
theorem claim8_submitted_terminal {α : Type}
    (grade : List α → Nat × List Mistake) (total : Nat) (budget : Int)
    (e : AssessEvent α) (s : AssessState α) :
    (s.submitted = true → step grade total budget e s = s) ∧
    (s.submitted = false →
      (step grade total budget .submitClick s).submitted = true ∧
      (step grade total budget .submitClick s).result =
        some ⟨(grade s.answers).1, total, budget - s.timeLeft, (grade s.answers).2⟩) := by
  constructor
  · intro h
    cases e <;> simp [step, handleSubmit, h]
  · intro h
    simp [step, handleSubmit, h]

/-- Claim C8 witness: a submitted state absorbs a tick, and a fresh state
computes its result at first submission. -/
theorem claim8_witness :
    step (quizGrade []) 0 300 .tick
        (⟨[], true, 5, some ⟨0, 0, 0, []⟩⟩ : AssessState (Option Nat)) =
      (⟨[], true, 5, some ⟨0, 0, 0, []⟩⟩ : AssessState (Option Nat)) ∧
    ((step (quizGrade []) 0 300 .submitClick
        (⟨[], false, 7, none⟩ : AssessState (Option Nat))).submitted = true ∧
      (step (quizGrade []) 0 300 .submitClick
        (⟨[], false, 7, none⟩ : AssessState (Option Nat))).result =
        some ⟨(quizGrade [] []).1, 0, 300 - 7, (quizGrade [] []).2⟩) :=
  ⟨(claim8_submitted_terminal (quizGrade []) 0 300 .tick
      ⟨[], true, 5, some ⟨0, 0, 0, []⟩⟩).1 rfl,
   (claim8_submitted_terminal (quizGrade []) 0 300 .submitClick
      ⟨[], false, 7, none⟩).2 rfl⟩

/-- Claim C10: when every recorded answer index and every question's
correct-answer index is within its option list, every mistake entry's
`userAnswer` and `correctAnswer` lookups are in bounds, so both fields are
defined strings (never the `undefined` of an out-of-range JS index). -/
theorem claim10_lookups_safe
    (qs : List QuizQuestion) (as : List (Option Nat))
    (hlen : qs.length = as.length)
    (hcorrect : ∀ q ∈ qs, q.correctAnswerIndex < q.options.length)
    (hans : ∀ x ∈ qs.zip as, ∀ i, x.2 = some i → i < x.1.options.length) :
    ((quizGrade qs as).2.all fun m => m.userAnswer.isSome && m.correctAnswer.isSome)
      = true := by
  rw [List.all_eq_true]
  intro m hm
  rw [Bool.and_eq_true]
  rw [quizGrade_snd] at hm
  simp only [specQuizMistakes, List.mem_map, List.mem_filter] at hm
  obtain ⟨x, ⟨hxz, _⟩, rfl⟩ := hm
  constructor
  · cases ha : x.2 with
    | none => simp [quizMistakeEntry, ha]
    | some i =>
      have hi := hans x hxz i ha
      simpa [quizMistakeEntry, ha] using get?_isSome_of_lt hi
  · have hq := hcorrect x.1 (List.of_mem_zip hxz).1
    simpa [quizMistakeEntry] using get?_isSome_of_lt hq

/-- Claim C10 witness: a one-question quiz with an in-bounds wrong answer;
its single mistake has both fields defined. -/
theorem claim10_witness :
    ((quizGrade [⟨"q", ["x", "y"], 1⟩] [some 0]).2.all
      fun m => m.userAnswer.isSome && m.correctAnswer.isSome) = true :=
  claim10_lookups_safe [⟨"q", ["x", "y"], 1⟩] [some 0] rfl
    (by
      intro q hq
      rw [List.mem_singleton] at hq
      subst hq
      decide)
    (by
      intro x hx i hi
      have hx2 : x = (⟨"q", ["x", "y"], 1⟩, some 0) := by
        simpa using hx
      subst hx2
      simp only at hi
      have : i = 0 := by
        injection hi with h
        omega
      subst this
      decide)

/-- Claim C2, counterexample: a single record dated tomorrow (day 101,
with today = day 100).  The most recent recorded day is neither today nor
yesterday, so the claim as stated requires `currentStreak = 0`, but the
code's absolute-difference test accepts tomorrow and returns 1. -/
theorem claim2_cex :
    (calculateStats 100 [⟨101, "t", 0, 0, 0, 0, 0, 0⟩]).currentStreak = 1 ∧
    specCurrentStreakClaimed 100 [⟨101, "t", 0, 0, 0, 0, 0, 0⟩] = 0 := by
  constructor
  · decide
  · decide

/-- Claim C2 (amended): `currentStreak` is the backward walk from the most
recent distinct recorded day, counting calendar-consecutive days, run
exactly when the most recent recorded day is within one calendar day of
today — today, yesterday, or tomorrow — and 0 otherwise (in particular 0
whenever the most recent day is older than yesterday). -/
theorem claim2_current_streak (today : Int) (records : List LessonRecord) :
    (calculateStats today records).currentStreak =
      specCurrentStreakAmended today records := by
  by_cases hrec : records = []
  · subst hrec
    rfl
  · have hne := uniqueDaysDesc_ne_nil hrec
    obtain ⟨d, rest, hD⟩ : ∃ d rest, uniqueDaysDesc records = d :: rest := by
      cases h' : uniqueDaysDesc records with
      | nil => exact absurd h' hne
      | cons d rest => exact ⟨d, rest, rfl⟩
    have hcond : (isSameDay today d || areConsecutiveDays today d) = true ↔
        (today - d).natAbs ≤ 1 := by
      simp only [isSameDay, areConsecutiveDays, Bool.or_eq_true, decide_eq_true_eq]
      omega
    simp only [calculateStats, if_neg hrec, specCurrentStreakAmended,
      distinctDaysAsc_eq_reverse, hD, List.getLast?_reverse, List.head?_cons,
      List.reverse_reverse]
    by_cases hc : (today - d).natAbs ≤ 1
    · rw [if_pos (hcond.mpr hc), if_pos hc]
    · rw [if_neg (fun hb => hc (hcond.mp hb)), if_neg hc]

/-- Claim C2 witness: records on today and yesterday give a current streak
of 2, matching the amended specification value. -/
theorem claim2_witness :
    (calculateStats 100 [⟨100, "a", 0, 0, 0, 0, 0, 0⟩, ⟨99, "b", 0, 0, 0, 0, 0, 0⟩]).currentStreak =
      specCurrentStreakAmended 100 [⟨100, "a", 0, 0, 0, 0, 0, 0⟩, ⟨99, "b", 0, 0, 0, 0, 0, 0⟩] :=
  claim2_current_streak 100 [⟨100, "a", 0, 0, 0, 0, 0, 0⟩, ⟨99, "b", 0, 0, 0, 0, 0, 0⟩]

/-- Claim C5: `longestStreak` equals the maximum length of any run of
calendar-consecutive distinct days anywhere in the sorted distinct-day
list; an empty history yields 0 and a single distinct day yields 1. -/
theorem claim5_longest_streak (today : Int) (records : List LessonRecord) :
    (calculateStats today records).longestStreak = maxRun (distinctDaysAsc records) ∧
    (calculateStats 0 ([] : List LessonRecord)).longestStreak = 0 ∧
    (calculateStats 0 [⟨42, "x", 0, 0, 0, 0, 0, 0⟩]).longestStreak = 1 := by
  have hmain : (calculateStats today records).longestStreak =
      maxRun (distinctDaysAsc records) := by
    by_cases hrec : records = []
    · subst hrec
      rfl
    · simp only [calculateStats, if_neg hrec]
      rw [distinctDaysAsc_eq_reverse, maxRun_reverse, longestStreakOf_eq_maxRun]
  exact ⟨hmain, rfl, by decide⟩

/-- Claim C9: the current streak never exceeds the longest streak. -/
theorem claim9_current_le_longest (today : Int) (records : List LessonRecord) :
    (calculateStats today records).currentStreak ≤
      (calculateStats today records).longestStreak := by
  by_cases hrec : records = []
  · subst hrec
    simp [calculateStats]
  · simp only [calculateStats, if_neg hrec]
    have hne := uniqueDaysDesc_ne_nil hrec
    obtain ⟨d, rest, hD⟩ : ∃ d rest, uniqueDaysDesc records = d :: rest := by
      cases h' : uniqueDaysDesc records with
      | nil => exact absurd h' hne
      | cons d rest => exact ⟨d, rest, rfl⟩
    simp only [hD, longestStreakOf_eq_maxRun]
    by_cases hc : (isSameDay today d || areConsecutiveDays today d) = true
    · rw [if_pos hc]
      simp only [maxRun]
      omega
    · rw [if_neg hc]
      omega

/-- Claim C6: `averageScore` is the half-up-rounded percentage of total
points earned over total points possible, 0 when the denominator is 0;
records scoring 4 of 5 and 3 of 5 average to 70. -/
theorem claim6_average_score (today : Int) (records : List LessonRecord) :
    (calculateStats today records).averageScore = specAverageScore records ∧
    (calculateStats 0 ([] : List LessonRecord)).averageScore = 0 ∧
    (calculateStats 0 [⟨0, "z", 0, 0, 0, 0, 0, 0⟩]).averageScore = 0 ∧
    (calculateStats 0 [⟨0, "a", 4, 5, 0, 0, 0, 0⟩, ⟨0, "b", 3, 5, 0, 0, 0, 0⟩]).averageScore
      = 70 := by
  have hmain : (calculateStats today records).averageScore = specAverageScore records := by
    by_cases hrec : records = []
    · subst hrec
      rfl
    · simp only [calculateStats, if_neg hrec, specAverageScore]
      rw [foldl_add_pair_eq_sum (fun r => r.quizScore) (fun r => r.problemsScore) records 0,
        foldl_add_pair_eq_sum (fun r => r.quizTotal) (fun r => r.problemsTotal) records 0]
      simp only [Nat.zero_add]
      rcases Nat.eq_zero_or_pos ((records.map fun r => r.quizTotal + r.problemsTotal).sum)
        with ht | ht
      · rw [ht]
        simp
      · rw [if_pos ht, if_neg (by omega)]
  exact ⟨hmain, rfl, by decide, by decide⟩

/-- Claim C3, counterexample: stored data that is valid JSON but not of
the `{ records: [...] }` shape — the number `0` — is returned as-is by
`loadProgress` (the unchecked `as UserProgress` cast), not degraded to
`{ records: [] }`. -/
theorem claim3_cex :
    loadProgress false (.parsed (.num 0)) = Json.num 0 ∧
    ¬ isProgressShape (Json.num 0) ∧
    Json.num 0 ≠ emptyProgressJson := by
  refine ⟨rfl, ?_, ?_⟩
  · rintro ⟨rs, h⟩
    exact Json.noConfusion h
  · intro h
    rw [emptyProgressJson] at h
    exact Json.noConfusion h

/-- Claim C3 (amended): `loadProgress` returns `{ records: [] }` when the
key is absent, when the stored string is unparseable, or when the storage
read throws (the error is caught and logged); data that parses as JSON is
returned as-is with no shape validation; a write that throws is caught,
leaving the store unchanged; neither operation propagates an exception. -/
theorem claim3_storage_degradation (s : StoredData) (j : Json)
    (store : Option Json) (p : Json) :
    loadProgress true s = emptyProgressJson ∧
    loadProgress false .absent = emptyProgressJson ∧
    loadProgress false .unparseable = emptyProgressJson ∧
    loadProgress false (.parsed j) = j ∧
    saveProgress true store p = store ∧
    saveProgress false store p = some p :=
  ⟨rfl, rfl, rfl, rfl, rfl, rfl⟩

end AlgeBro
